import Mathlib

/-!
Verification development for the GPS trace-cleaning core of the repository
(`py/gps_cleaner.py`).  The four source functions `clean_gps_route`,
`validate_segment`, `get_route_via_forward_routing` and
`calculate_path_distance_coords` are embedded shallowly:

* coordinates are rationals (`GeoPoint`), since every claim under study is
  about control flow and index bookkeeping, not about transcendental
  geometry;
* the injected routing collaborator (`forwardRouting` composed with
  `get_route_via_forward_routing`) is modelled by an oracle
  `route : ℕ → GeoPoint → GeoPoint → Option (List GeoPoint)` giving, for the
  n-th routing call of a run, either the decoded polyline or `none`
  (the `None` the source returns on a non-"Ok" engine status);
* the numeric geometry primitives used by `validate_segment`
  (`haversine_distance`, and shapely's perpendicular projection
  `line.interpolate(line.project(p))`) are abstracted as oracle parameters
  `haversine` and `proj` — the source's accept/reject structure around them
  is kept exactly;
* the uncaught `TypeError` that Python raises when the final commit call
  returns `None` and the source subscripts it (`final_segment_coords[:-1]`)
  is modelled by the `crash` constructors below;
* ghost fields (`anchors`, `keyIdxs`, `segs`) record the anchor trajectory,
  the raw-trace indices of the committed key waypoints, and the committed
  routed polylines; the computational fields mirror the source statement by
  statement.
-/

set_option maxRecDepth 4000
set_option linter.unusedVariables false

namespace TrainlogGps

/-- A GPS coordinate; the source passes coordinate pairs `[lng, lat]`. -/
structure GeoPoint where
  lng : ℚ
  lat : ℚ
deriving DecidableEq

instance : Inhabited GeoPoint := ⟨⟨0, 0⟩⟩

/-- The injected collaborators of `clean_gps_route`.  `route n a b` is the
result of `get_route_via_forward_routing` on the n-th routing call of the
run (decoded coordinates, or `none` when the engine answers a non-"Ok"
status).  `haversine` abstracts `haversine_distance` and `proj` abstracts
shapely's `line.interpolate(line.project(p))` used in `validate_segment`. -/
structure Oracle where
  route : ℕ → GeoPoint → GeoPoint → Option (List GeoPoint)
  haversine : GeoPoint → GeoPoint → ℚ
  proj : GeoPoint → List GeoPoint → GeoPoint

/-- An oracle whose answers depend only on the queried endpoints, not on
the position of the call in the run (a routing engine viewed as a
function). -/
def Oracle.Consistent (o : Oracle) : Prop :=
  ∀ m n a b, o.route m a b = o.route n a b

/-- Source `validate_segment` (gps_cleaner.py lines 112-130): walk the
intermediate points in order and reject at the first whose real-world
distance to its projection onto the candidate polyline exceeds the
threshold.  (The planar `p.distance(line)` the source also computes is dead
code and is not modelled.) -/
def validate_segment (hav : GeoPoint → GeoPoint → ℚ)
    (proj : GeoPoint → List GeoPoint → GeoPoint)
    (route_coords : List GeoPoint) (intermediate_points : List GeoPoint)
    (threshold : ℚ) : Bool :=
  match intermediate_points with
  | [] => true
  | p :: rest =>
    if hav p (proj p route_coords) ≤ threshold then
      validate_segment hav proj route_coords rest threshold
    else
      false

/-- Source `calculate_path_distance_coords` (lines 189-195): 0 for fewer
than two points, otherwise the sum of pairwise distances of consecutive
points. -/
def calculate_path_distance_coords (hav : GeoPoint → GeoPoint → ℚ) :
    List GeoPoint → ℚ
  | [] => 0
  | [_] => 0
  | a :: b :: rest => hav a b + calculate_path_distance_coords hav (b :: rest)

/-- The probe both search phases of the source repeat verbatim (lines
50-55 and 69-74): route from `raw[anchor]` to `raw[j]` on the current call
of the run, and demand both a truthy route and a successful validation
against the raw fixes strictly between the two indices
(`raw_waypoints[anchor+1 : j]`).  Python's `if not segment_coords` is a
truthiness test: it fails both on `None` and on an empty polyline `[]`,
so the probe requires `some cs` with `cs` nonempty. -/
def probeOk (o : Oracle) (raw : List GeoPoint) (threshold : ℚ)
    (anchor j calls : ℕ) : Bool :=
  match o.route calls (raw.getD anchor default) (raw.getD j default) with
  | none => false
  | some cs =>
    !cs.isEmpty &&
      validate_segment o.haversine o.proj cs
        ((raw.drop (anchor + 1)).take (j - (anchor + 1))) threshold

/-- The exponential-expansion phase of `clean_gps_route` (lines 39-60):
`while True` probing `anchor + step`, doubling `step` while the probed
segment routes and validates; returns
`(lower_bound_idx, upper_bound_idx, call counter)`. -/
def expandPhase (o : Oracle) (raw : List GeoPoint) (threshold : ℚ)
    (anchor : ℕ) (lower step calls : ℕ) (hstep : 0 < step) : ℕ × ℕ × ℕ :=
  if hp : raw.length ≤ anchor + step then
    (lower, raw.length - 1, calls)
  else if probeOk o raw threshold anchor (anchor + step) calls then
    expandPhase o raw threshold anchor (anchor + step) (step * 2) (calls + 1)
      (by omega)
  else
    (lower, anchor + step, calls + 1)
termination_by raw.length - step
decreasing_by simp_wf; omega

/-- The binary-search phase of `clean_gps_route` (lines 62-78): bisect
`[lower_bound_idx, upper_bound_idx]`, breaking early when the midpoint does
not exceed the anchor; returns `(best_next_idx, call counter)`. -/
def binaryPhase (o : Oracle) (raw : List GeoPoint) (threshold : ℚ)
    (anchor : ℕ) (lower upper best calls : ℕ) : ℕ × ℕ :=
  if hlu : lower ≤ upper then
    if hm : (lower + upper) / 2 ≤ anchor then
      (best, calls)
    else if probeOk o raw threshold anchor ((lower + upper) / 2) calls then
      binaryPhase o raw threshold anchor ((lower + upper) / 2 + 1) upper
        ((lower + upper) / 2) (calls + 1)
    else
      binaryPhase o raw threshold anchor lower ((lower + upper) / 2 - 1) best
        (calls + 1)
  else
    (best, calls)
termination_by upper + 1 - lower
decreasing_by all_goals simp_wf; omega

/-- Mutable state of the main loop of `clean_gps_route`.  `keyIdxs` holds
the raw-trace indices whose coordinates the source appends to
`key_waypoints_coords` (the appended value is literally
`raw_waypoints[idx]`, so the coordinate list is `keyIdxs.map`); `path` is
`final_route_coords`; `calls` counts routing calls; `segs` (ghost) records
each committed segment's routed polyline; `anchors` (ghost) records every
value taken by `last_anchor_idx`. -/
structure LoopState where
  keyIdxs : List ℕ
  path : List GeoPoint
  segs : List (List GeoPoint)
  calls : ℕ
  anchors : List ℕ
deriving DecidableEq

/-- Outcome of the main loop: normal exit, or the uncaught `TypeError`
raised at line 90 when the final commit call returned `None`. -/
inductive LoopResult where
  | done (s : LoopState)
  | crash (s : LoopState)
deriving DecidableEq

/-- The loop state carried by either outcome. -/
def LoopResult.state : LoopResult → LoopState
  | .done s => s
  | .crash s => s

/-- One anchor's whole search (lines 39-78 of the source): exponential
expansion from `lower_bound_idx = anchor`, `probe_step = 1`, then binary
search over the obtained window with `best_next_idx` initialised to the
expansion's lower bound; returns `(best_next_idx, call counter)`. -/
def searchFrom (o : Oracle) (raw : List GeoPoint) (threshold : ℚ)
    (anchor calls : ℕ) : ℕ × ℕ :=
  let e := expandPhase o raw threshold anchor anchor 1 calls Nat.one_pos
  binaryPhase o raw threshold anchor e.1 e.2.1 e.1 e.2.2

/-- The main `while last_anchor_idx < total_points - 1` loop of
`clean_gps_route` (lines 32-92): run expansion then binary search from the
current anchor; if no index beyond the anchor was validated, advance the
anchor by one without appending anything; otherwise re-route the committed
segment, append its polyline minus its last point to the path, append the
committed endpoint to the key waypoints and jump the anchor to it.  A
`none` answer to the commit call crashes (the source subscripts `None`). -/
def cleanLoop (o : Oracle) (raw : List GeoPoint) (threshold : ℚ)
    (anchor : ℕ) (s : LoopState) : LoopResult :=
  if h : anchor < raw.length - 1 then
    if hb : (searchFrom o raw threshold anchor s.calls).1 ≤ anchor then
      cleanLoop o raw threshold (anchor + 1)
        { s with calls := (searchFrom o raw threshold anchor s.calls).2,
                 anchors := s.anchors ++ [anchor + 1] }
    else
      match o.route (searchFrom o raw threshold anchor s.calls).2
          (raw.getD anchor default)
          (raw.getD (searchFrom o raw threshold anchor s.calls).1 default) with
      | none =>
        LoopResult.crash
          { s with calls := (searchFrom o raw threshold anchor s.calls).2 + 1 }
      | some cs =>
        cleanLoop o raw threshold (searchFrom o raw threshold anchor s.calls).1
          { keyIdxs := s.keyIdxs ++ [(searchFrom o raw threshold anchor s.calls).1],
            path := s.path ++ cs.dropLast,
            segs := s.segs ++ [cs],
            calls := (searchFrom o raw threshold anchor s.calls).2 + 1,
            anchors := s.anchors ++ [(searchFrom o raw threshold anchor s.calls).1] }
  else
    LoopResult.done s
termination_by raw.length - 1 - anchor
decreasing_by all_goals simp_wf; omega

/-- The success record built at lines 101-109 of the source.
`compression` is the source's compression-ratio field
(`len(raw_waypoints) / len(final_path) if final_path else 0`). -/
structure CleanOk where
  waypoints : List GeoPoint
  path : List GeoPoint
  distance : ℚ
  duration : ℚ
  reroute_count : ℤ
  compression : ℚ
deriving DecidableEq

/-- Possible outcomes of `clean_gps_route`: the failure dictionary for
short inputs, the success dictionary, or an uncaught exception (see
`LoopResult.crash`). -/
inductive CleanOutcome where
  | failure (error : String)
  | ok (res : CleanOk)
  | crash
deriving DecidableEq

/-- Initial loop state: `key_waypoints_coords = [raw_waypoints[0]]`
(index 0), empty path, zero calls made, anchor at 0. -/
def initState : LoopState :=
  { keyIdxs := [0], path := [], segs := [], calls := 0, anchors := [0] }

/-- Source `clean_gps_route` (lines 7-109): fail fast on traces shorter
than 2, otherwise run the main loop from anchor 0 and assemble the result
dictionary (append the last key waypoint to the dense path, compute the
path distance, `reroute_count = len(key_waypoints) - 2`, and the
compression ratio). -/
def clean_gps_route (o : Oracle) (raw : List GeoPoint) (threshold : ℚ) :
    CleanOutcome :=
  if raw.length < 2 then
    CleanOutcome.failure "Need at least 2 waypoints"
  else
    match cleanLoop o raw threshold 0 initState with
    | LoopResult.crash _ => CleanOutcome.crash
    | LoopResult.done s =>
      let final_route := s.path ++ [raw.getD (s.keyIdxs.getLastD 0) default]
      let key_waypoints := s.keyIdxs.map (fun i => raw.getD i default)
      CleanOutcome.ok
        { waypoints := key_waypoints,
          path := final_route,
          distance := calculate_path_distance_coords o.haversine final_route,
          duration := 0,
          reroute_count := (key_waypoints.length : ℤ) - 2,
          compression :=
            if final_route.isEmpty then 0
            else (raw.length : ℚ) / (final_route.length : ℚ) }

/-- One decoded route of the engine reply: `geometry` is the decoded
polyline as `polyline.decode` returns it, a list of `(lat, lng)` pairs
(the decoding of the compact string is abstracted), with the engine's
reported distance and duration. -/
structure RouteEntry where
  geometry : List (ℚ × ℚ)
  distance : ℚ
  duration : ℚ
deriving DecidableEq

/-- The parsed JSON body of the engine's answer: a status code and a list
of routes. -/
structure EngineReply where
  code : String
  routes : List RouteEntry
deriving DecidableEq

/-- The value the injected `forwardRouting` callable hands back: a flask
`Response` whose body parses to a reply, a plain string that parses to a
reply, or any other Python object. -/
inductive TransportResponse where
  | response (reply : EngineReply)
  | str (reply : EngineReply)
  | other
deriving DecidableEq

/-- The exceptions `get_route_via_forward_routing` can raise:
the explicit `TypeError("Unsupported response type")` of line 158, and the
`IndexError` from `routing_result["routes"][0]` at line 163 when an "Ok"
reply carries no routes. -/
inductive PyError where
  | typeError
  | indexError
deriving DecidableEq

/-- Lines 160-172 of the source, shared by both parseable response shapes:
a non-"Ok" status yields `None` (here `Except.ok none`); otherwise the
first route's decoded `(lat, lng)` geometry is flipped into `[lng, lat]`
coordinates.  Modelled for `return_details=False`, the only form
`clean_gps_route` uses. -/
def routing_result_to_coords (reply : EngineReply) :
    Except PyError (Option (List GeoPoint)) :=
  if reply.code ≠ "Ok" then
    Except.ok none
  else
    match reply.routes with
    | [] => Except.error PyError.indexError
    | r :: _ => Except.ok (some (r.geometry.map (fun c => GeoPoint.mk c.2 c.1)))

/-- Source `get_route_via_forward_routing` (lines 142-172), response
handling: a flask `Response` or a string is parsed and processed, anything
else raises `TypeError`.  (The request-string construction of lines
143-151 only shapes the query sent to the injected callable and is
absorbed into the oracle.) -/
def get_route_via_forward_routing (resp : TransportResponse) :
    Except PyError (Option (List GeoPoint)) :=
  match resp with
  | TransportResponse.response reply => routing_result_to_coords reply
  | TransportResponse.str reply => routing_result_to_coords reply
  | TransportResponse.other => Except.error PyError.typeError

/-- The validated-segment predicate determined by a consistent oracle:
`probeOk` evaluated at call 0.  For an oracle whose answers depend only on
the endpoints this is the test every probe of the source performs. -/
def routeOk (o : Oracle) (raw : List GeoPoint) (threshold : ℚ)
    (anchor j : ℕ) : Bool :=
  probeOk o raw threshold anchor j 0

/-- Concrete collaborators for witness runs: a routing engine that never
finds a route. -/
def oracleNone : Oracle :=
  { route := fun _ _ _ => none,
    haversine := fun _ _ => 0,
    proj := fun _ _ => default }

/-- Concrete collaborators for witness runs: an engine that always answers
the same two-point polyline, under a deviation measure that is identically
zero (every validation passes). -/
def oracleLine : Oracle :=
  { route := fun _ _ _ => some [⟨0, 0⟩, ⟨3, 3⟩],
    haversine := fun _ _ => 0,
    proj := fun _ _ => default }

/-- Concrete collaborators for witness runs: an engine that answers the
first two calls of a run and fails from the third call on. -/
def oracleFlaky : Oracle :=
  { route := fun n _ _ => if n < 2 then some [⟨0, 0⟩, ⟨3, 3⟩] else none,
    haversine := fun _ _ => 0,
    proj := fun _ _ => default }

/-- Concrete collaborators for witness runs: an engine that always
answers, but always with an empty polyline — which the source's
truthiness test `if not segment_coords` treats as a failed probe. -/
def oracleEmpty : Oracle :=
  { route := fun _ _ _ => some [],
    haversine := fun _ _ => 0,
    proj := fun _ _ => default }

/-- Helper: under a consistent oracle every probe of the run computes the
same predicate `routeOk`, whatever the call counter. -/
theorem probeOk_eq_routeOk (o : Oracle) (hcons : o.Consistent)
    (raw : List GeoPoint) (t : ℚ) (anchor j calls : ℕ) :
    probeOk o raw t anchor j calls = routeOk o raw t anchor j := by
  unfold routeOk probeOk
  rw [hcons calls 0]

/-- Helper: the expansion phase never moves its lower bound backwards. -/
theorem expandPhase_fst_ge (o : Oracle) (raw : List GeoPoint) (t : ℚ)
    (anchor : ℕ) :
    ∀ (lower step calls : ℕ) (hstep : 0 < step), lower ≤ anchor + step →
      lower ≤ (expandPhase o raw t anchor lower step calls hstep).1 := by
  intro lower step calls hstep
  induction lower, step, calls, hstep using expandPhase.induct o raw t anchor with
  | case1 lower step calls hstep hp =>
    intro hl
    rw [expandPhase]
    simp [hp]
  | case2 lower step calls hstep hp hprobe ih =>
    intro hl
    rw [expandPhase, dif_neg hp, if_pos hprobe]
    exact le_trans hl (ih (by omega))
  | case3 lower step calls hstep hp hprobe =>
    intro hl
    rw [expandPhase, dif_neg hp, if_neg hprobe]

/-- Helper: the expansion phase keeps its lower bound inside the trace. -/
theorem expandPhase_fst_lt (o : Oracle) (raw : List GeoPoint) (t : ℚ)
    (anchor : ℕ) :
    ∀ (lower step calls : ℕ) (hstep : 0 < step), lower < raw.length →
      (expandPhase o raw t anchor lower step calls hstep).1 < raw.length := by
  intro lower step calls hstep
  induction lower, step, calls, hstep using expandPhase.induct o raw t anchor with
  | case1 lower step calls hstep hp =>
    intro hl
    rw [expandPhase, dif_pos hp]
    exact hl
  | case2 lower step calls hstep hp hprobe ih =>
    intro hl
    rw [expandPhase, dif_neg hp, if_pos hprobe]
    exact ih (by omega)
  | case3 lower step calls hstep hp hprobe =>
    intro hl
    rw [expandPhase, dif_neg hp, if_neg hprobe]
    exact hl

/-- Helper: the expansion phase's upper bound never exceeds the last raw
index. -/
theorem expandPhase_snd_le (o : Oracle) (raw : List GeoPoint) (t : ℚ)
    (anchor : ℕ) :
    ∀ (lower step calls : ℕ) (hstep : 0 < step),
      (expandPhase o raw t anchor lower step calls hstep).2.1 ≤
        raw.length - 1 := by
  intro lower step calls hstep
  induction lower, step, calls, hstep using expandPhase.induct o raw t anchor with
  | case1 lower step calls hstep hp =>
    rw [expandPhase, dif_pos hp]
  | case2 lower step calls hstep hp hprobe ih =>
    rw [expandPhase, dif_neg hp, if_pos hprobe]
    exact ih
  | case3 lower step calls hstep hp hprobe =>
    rw [expandPhase, dif_neg hp, if_neg hprobe]
    dsimp only
    omega

/-- Helper: the expansion phase returns a window, lower bound at most
upper bound. -/
theorem expandPhase_fst_le_snd (o : Oracle) (raw : List GeoPoint) (t : ℚ)
    (anchor : ℕ) :
    ∀ (lower step calls : ℕ) (hstep : 0 < step), lower ≤ anchor + step →
      lower < raw.length →
      (expandPhase o raw t anchor lower step calls hstep).1 ≤
        (expandPhase o raw t anchor lower step calls hstep).2.1 := by
  intro lower step calls hstep
  induction lower, step, calls, hstep using expandPhase.induct o raw t anchor with
  | case1 lower step calls hstep hp =>
    intro hl hlen
    rw [expandPhase, dif_pos hp]
    dsimp only
    omega
  | case2 lower step calls hstep hp hprobe ih =>
    intro hl hlen
    rw [expandPhase, dif_neg hp, if_pos hprobe]
    exact ih (by omega) (by omega)
  | case3 lower step calls hstep hp hprobe =>
    intro hl hlen
    rw [expandPhase, dif_neg hp, if_neg hprobe]
    exact hl

/-- Helper: under a consistent oracle, the expansion phase's final lower
bound is either its initial one or a validated index. -/
theorem expandPhase_fst_valid (o : Oracle) (hcons : o.Consistent)
    (raw : List GeoPoint) (t : ℚ) (anchor : ℕ) :
    ∀ (lower step calls : ℕ) (hstep : 0 < step),
      (expandPhase o raw t anchor lower step calls hstep).1 = lower ∨
      routeOk o raw t anchor
        (expandPhase o raw t anchor lower step calls hstep).1 = true := by
  intro lower step calls hstep
  induction lower, step, calls, hstep using expandPhase.induct o raw t anchor with
  | case1 lower step calls hstep hp =>
    rw [expandPhase, dif_pos hp]
    exact Or.inl rfl
  | case2 lower step calls hstep hp hprobe ih =>
    rw [expandPhase, dif_neg hp, if_pos hprobe]
    rcases ih with h | h
    · right
      rw [h, ← probeOk_eq_routeOk o hcons raw t anchor (anchor + step) calls]
      exact hprobe
    · exact Or.inr h
  | case3 lower step calls hstep hp hprobe =>
    rw [expandPhase, dif_neg hp, if_neg hprobe]
    exact Or.inl rfl

/-- Helper: under a consistent oracle, the expansion phase's upper bound
is either the last raw index (probe ran off the end) or a failed probe
strictly beyond the anchor. -/
theorem expandPhase_snd_failed (o : Oracle) (hcons : o.Consistent)
    (raw : List GeoPoint) (t : ℚ) (anchor : ℕ) :
    ∀ (lower step calls : ℕ) (hstep : 0 < step),
      (expandPhase o raw t anchor lower step calls hstep).2.1 =
        raw.length - 1 ∨
      (routeOk o raw t anchor
          (expandPhase o raw t anchor lower step calls hstep).2.1 = false ∧
        anchor < (expandPhase o raw t anchor lower step calls hstep).2.1 ∧
        (expandPhase o raw t anchor lower step calls hstep).2.1 <
          raw.length) := by
  intro lower step calls hstep
  induction lower, step, calls, hstep using expandPhase.induct o raw t anchor with
  | case1 lower step calls hstep hp =>
    rw [expandPhase, dif_pos hp]
    exact Or.inl rfl
  | case2 lower step calls hstep hp hprobe ih =>
    rw [expandPhase, dif_neg hp, if_pos hprobe]
    exact ih
  | case3 lower step calls hstep hp hprobe =>
    rw [expandPhase, dif_neg hp, if_neg hprobe]
    right
    dsimp only
    refine ⟨?_, by omega, by omega⟩
    rw [← probeOk_eq_routeOk o hcons raw t anchor (anchor + step) calls]
    exact Bool.not_eq_true _ ▸ (by simpa using hprobe)

/-- Helper: if the first probe of the expansion succeeds (it always does
when the oracle always answers with a nonempty — truthy — polyline, its
validation window being empty), the final lower bound is at least
`anchor + 1`. -/
theorem expandPhase_always_ge (o : Oracle) (raw : List GeoPoint) (t : ℚ)
    (anchor calls : ℕ)
    (hans : ∀ n a b, ∃ cs, o.route n a b = some cs ∧ cs ≠ [])
    (h : anchor + 1 < raw.length) :
    anchor + 1 ≤ (expandPhase o raw t anchor anchor 1 calls Nat.one_pos).1 := by
  have hp : ¬raw.length ≤ anchor + 1 := by omega
  have hprobe : probeOk o raw t anchor (anchor + 1) calls = true := by
    obtain ⟨cs, hcs, hne⟩ := hans calls (raw.getD anchor default)
      (raw.getD (anchor + 1) default)
    cases cs with
    | nil => exact absurd rfl hne
    | cons a l =>
      unfold probeOk
      rw [hcs]
      simp [validate_segment]
  rw [expandPhase, dif_neg hp, if_pos hprobe]
  exact expandPhase_fst_ge o raw t anchor (anchor + 1) (1 * 2) (calls + 1)
    (by omega) (by omega)

/-- Helper: under a consistent oracle, the expansion from scratch can only
return its initial lower bound `anchor` if the very first probe
`anchor + 1` failed. -/
theorem expandPhase_first_failed (o : Oracle) (hcons : o.Consistent)
    (raw : List GeoPoint) (t : ℚ) (anchor calls : ℕ)
    (h : anchor + 1 < raw.length)
    (heq : (expandPhase o raw t anchor anchor 1 calls Nat.one_pos).1 =
      anchor) :
    routeOk o raw t anchor (anchor + 1) = false := by
  have hp : ¬raw.length ≤ anchor + 1 := by omega
  cases hprobe : probeOk o raw t anchor (anchor + 1) calls with
  | false =>
    rw [← probeOk_eq_routeOk o hcons raw t anchor (anchor + 1) calls]
    exact hprobe
  | true =>
    exfalso
    rw [expandPhase, dif_neg hp, if_pos hprobe] at heq
    have := expandPhase_fst_ge o raw t anchor (anchor + 1) (1 * 2) (calls + 1)
      (by omega) (by omega)
    omega

/-- Helper: under a consistent oracle, the binary search returns either
its initial best candidate or a validated index beyond the anchor. -/
theorem binaryPhase_fst_valid (o : Oracle) (hcons : o.Consistent)
    (raw : List GeoPoint) (t : ℚ) (anchor : ℕ) :
    ∀ (lower upper best calls : ℕ),
      (binaryPhase o raw t anchor lower upper best calls).1 = best ∨
      (anchor < (binaryPhase o raw t anchor lower upper best calls).1 ∧
        routeOk o raw t anchor
          (binaryPhase o raw t anchor lower upper best calls).1 = true) := by
  intro lower upper best calls
  induction lower, upper, best, calls using binaryPhase.induct o raw t anchor with
  | case1 lower upper best calls hlu hm =>
    rw [binaryPhase, dif_pos hlu, dif_pos hm]
    exact Or.inl rfl
  | case2 lower upper best calls hlu hm hprobe ih =>
    rw [binaryPhase, dif_pos hlu, dif_neg hm, if_pos hprobe]
    rcases ih with h | h
    · right
      refine ⟨by omega, ?_⟩
      rw [h, ← probeOk_eq_routeOk o hcons raw t anchor ((lower + upper) / 2) calls]
      exact hprobe
    · exact Or.inr h
  | case3 lower upper best calls hlu hm hprobe ih =>
    rw [binaryPhase, dif_pos hlu, dif_neg hm, if_neg hprobe]
    exact ih
  | case4 lower upper best calls hlu =>
    rw [binaryPhase, dif_neg hlu]
    exact Or.inl rfl

/-- Helper: once the best candidate is beyond the anchor it stays so. -/
theorem binaryPhase_fst_gt (o : Oracle) (raw : List GeoPoint) (t : ℚ)
    (anchor : ℕ) :
    ∀ (lower upper best calls : ℕ), anchor < best →
      anchor < (binaryPhase o raw t anchor lower upper best calls).1 := by
  intro lower upper best calls
  induction lower, upper, best, calls using binaryPhase.induct o raw t anchor with
  | case1 lower upper best calls hlu hm =>
    intro hb
    rw [binaryPhase, dif_pos hlu, dif_pos hm]
    exact hb
  | case2 lower upper best calls hlu hm hprobe ih =>
    intro hb
    rw [binaryPhase, dif_pos hlu, dif_neg hm, if_pos hprobe]
    exact ih (by omega)
  | case3 lower upper best calls hlu hm hprobe ih =>
    intro hb
    rw [binaryPhase, dif_pos hlu, dif_neg hm, if_neg hprobe]
    exact ih hb
  | case4 lower upper best calls hlu =>
    intro hb
    rw [binaryPhase, dif_neg hlu]
    exact hb

/-- Helper: the binary search result is bounded by any bound of its
initial best candidate and upper bound. -/
theorem binaryPhase_fst_le (o : Oracle) (raw : List GeoPoint) (t : ℚ)
    (anchor K : ℕ) :
    ∀ (lower upper best calls : ℕ), best ≤ K → upper ≤ K →
      (binaryPhase o raw t anchor lower upper best calls).1 ≤ K := by
  intro lower upper best calls
  induction lower, upper, best, calls using binaryPhase.induct o raw t anchor with
  | case1 lower upper best calls hlu hm =>
    intro hb hu
    rw [binaryPhase, dif_pos hlu, dif_pos hm]
    exact hb
  | case2 lower upper best calls hlu hm hprobe ih =>
    intro hb hu
    rw [binaryPhase, dif_pos hlu, dif_neg hm, if_pos hprobe]
    exact ih (by omega) hu
  | case3 lower upper best calls hlu hm hprobe ih =>
    intro hb hu
    rw [binaryPhase, dif_pos hlu, dif_neg hm, if_neg hprobe]
    exact ih hb (by omega)
  | case4 lower upper best calls hlu =>
    intro hb hu
    rw [binaryPhase, dif_neg hlu]
    exact hb

/-- Helper: the bisection invariant.  If, beyond the anchor and within the
trace, validity is exactly "index at most B", then from any state
satisfying the stated window invariants the binary search returns B —
including through the `mid ≤ anchor` early break, which can only fire when
the window collapsed onto the anchor, forcing `B = anchor`. -/
theorem binaryPhase_finds (o : Oracle) (hcons : o.Consistent)
    (raw : List GeoPoint) (t : ℚ) (anchor B : ℕ)
    (hok : ∀ j, anchor < j → j ≤ raw.length - 1 →
      (routeOk o raw t anchor j = true ↔ j ≤ B))
    (hab : anchor ≤ B) :
    ∀ (lower upper best calls : ℕ),
      B ≤ upper → lower ≤ B + 1 → (lower ≤ B ∨ best = B) →
      anchor ≤ lower → anchor ≤ best → best ≤ B →
      (lower = anchor → B = anchor) → upper ≤ raw.length - 1 →
      (binaryPhase o raw t anchor lower upper best calls).1 = B := by
  intro lower upper best calls
  induction lower, upper, best, calls using binaryPhase.induct o raw t anchor with
  | case1 lower upper best calls hlu hm =>
    intro hBu hlB hK haL habest hbB hLA hu
    have hla : lower = anchor := by omega
    have hBa : B = anchor := hLA hla
    rw [binaryPhase, dif_pos hlu, dif_pos hm]
    omega
  | case2 lower upper best calls hlu hm hprobe ih =>
    intro hBu hlB hK haL habest hbB hLA hu
    have hmid1 : anchor < (lower + upper) / 2 := by omega
    have hmid2 : (lower + upper) / 2 ≤ raw.length - 1 := by omega
    have hmidB : (lower + upper) / 2 ≤ B := by
      refine (hok _ hmid1 hmid2).mp ?_
      rw [← probeOk_eq_routeOk o hcons raw t anchor ((lower + upper) / 2) calls]
      exact hprobe
    rw [binaryPhase, dif_pos hlu, dif_neg hm, if_pos hprobe]
    exact ih hBu (by omega) (by omega) (by omega) (by omega) hmidB
      (by omega) hu
  | case3 lower upper best calls hlu hm hprobe ih =>
    intro hBu hlB hK haL habest hbB hLA hu
    have hmid1 : anchor < (lower + upper) / 2 := by omega
    have hmid2 : (lower + upper) / 2 ≤ raw.length - 1 := by omega
    have hmidB : ¬((lower + upper) / 2 ≤ B) := by
      intro hle
      have := (hok _ hmid1 hmid2).mpr hle
      rw [← probeOk_eq_routeOk o hcons raw t anchor ((lower + upper) / 2)
        calls] at this
      exact hprobe this
    rw [binaryPhase, dif_pos hlu, dif_neg hm, if_neg hprobe]
    exact ih (by omega) hlB hK haL habest hbB hLA (by omega)
  | case4 lower upper best calls hlu =>
    intro hBu hlB hK haL habest hbB hLA hu
    rw [binaryPhase, dif_neg hlu]
    omega

/-- Helper: the shared reply-processing path never raises `TypeError`;
that exception is reserved to the unparseable-shape arm. -/
theorem routing_result_to_coords_ne_typeError (reply : EngineReply) :
    routing_result_to_coords reply ≠ Except.error PyError.typeError := by
  unfold routing_result_to_coords
  split
  · simp
  · split <;> simp

/-- C2: for an input trace with fewer than two points, `clean_gps_route`
immediately returns the failure dictionary with error
"Need at least 2 waypoints", and the routing collaborator is never
consulted (the result is the same under every oracle). -/
theorem clean_short_trace_fails (o o' : Oracle) (raw : List GeoPoint)
    (t : ℚ) (h : raw.length < 2) :
    clean_gps_route o raw t =
      CleanOutcome.failure "Need at least 2 waypoints" ∧
    clean_gps_route o raw t = clean_gps_route o' raw t := by
  constructor
  · simp [clean_gps_route, h]
  · simp [clean_gps_route, h]

/-- Witness for C2: a one-point trace fails fast with the exact message. -/
theorem clean_short_trace_fails_app :
    clean_gps_route oracleNone [⟨0, 0⟩] 500 =
      CleanOutcome.failure "Need at least 2 waypoints" :=
  (clean_short_trace_fails oracleNone oracleLine [⟨0, 0⟩] 500 (by simp)).1

/-- C7: `validate_segment` is vacuously true on an empty list of
intermediate points, and otherwise accepts exactly when every intermediate
point is within the threshold of its projection onto the candidate
polyline (ground distance measured by the haversine primitive). -/
theorem validate_segment_spec (hav : GeoPoint → GeoPoint → ℚ)
    (proj : GeoPoint → List GeoPoint → GeoPoint) (cs inter : List GeoPoint)
    (t : ℚ) :
    validate_segment hav proj cs [] t = true ∧
    (validate_segment hav proj cs inter t = true ↔
      ∀ p ∈ inter, hav p (proj p cs) ≤ t) := by
  refine ⟨rfl, ?_⟩
  induction inter with
  | nil => simp [validate_segment]
  | cons p rest ih =>
    simp only [validate_segment]
    by_cases hp : hav p (proj p cs) ≤ t
    · simp [hp, ih, List.forall_mem_cons]
    · simp [hp, List.forall_mem_cons]

/-- Witness for C7: a point at zero measured deviation passes a positive
threshold. -/
theorem validate_segment_spec_app :
    validate_segment (fun _ _ => 0) (fun _ _ => default)
      [⟨0, 0⟩, ⟨3, 3⟩] [⟨1, 1⟩] 500 = true :=
  (validate_segment_spec (fun _ _ => 0) (fun _ _ => default)
    [⟨0, 0⟩, ⟨3, 3⟩] [⟨1, 1⟩] 500).2.mpr (by intro p hp; norm_num)

/-- Counterexample for C9: the call can raise on a response that IS a
string (so parseable in the claim's sense): an "Ok" reply with an empty
routes list raises `IndexError` at `routing_result["routes"][0]`, refuting
"raises exactly when the response is neither a Response object nor a
string". -/
theorem route_client_raises_on_empty_routes :
    get_route_via_forward_routing
        (TransportResponse.str { code := "Ok", routes := [] }) =
      Except.error PyError.indexError := by
  rfl

/-- C9 as amended: a non-"Ok" status yields the no-route value `none`
rather than an exception, and the distinct `TypeError` is raised exactly
on a response that is neither a `Response` nor a string — but that
`TypeError` is not the only possible exception (see the counterexample:
an "Ok" reply with no routes raises `IndexError`). -/
theorem route_client_failure_spec (reply : EngineReply)
    (h : reply.code ≠ "Ok") :
    get_route_via_forward_routing (TransportResponse.response reply) =
      Except.ok none ∧
    get_route_via_forward_routing (TransportResponse.str reply) =
      Except.ok none ∧
    ∀ resp, get_route_via_forward_routing resp =
        Except.error PyError.typeError ↔ resp = TransportResponse.other := by
  refine ⟨?_, ?_, ?_⟩
  · simp [get_route_via_forward_routing, routing_result_to_coords, h]
  · simp [get_route_via_forward_routing, routing_result_to_coords, h]
  · intro resp
    cases resp with
    | response r =>
      simp [get_route_via_forward_routing,
        routing_result_to_coords_ne_typeError r]
    | str r =>
      simp [get_route_via_forward_routing,
        routing_result_to_coords_ne_typeError r]
    | other => simp [get_route_via_forward_routing]

/-- Witness for C9's amended statement: a "NoRoute" status comes back as
the no-route value. -/
theorem route_client_failure_spec_app :
    get_route_via_forward_routing
        (TransportResponse.str { code := "NoRoute", routes := [] }) =
      Except.ok none :=
  (route_client_failure_spec { code := "NoRoute", routes := [] }
    (by decide)).2.1

/-- Helper: the last element of a list is a member. -/
theorem mem_of_getLast_opt {α : Type} {l : List α} {a : α}
    (h : l.getLast? = some a) : a ∈ l := by
  rw [List.getLast?_eq_getElem?] at h
  exact List.getElem?_mem h

/-- Helper: every field of the loop state only ever grows by appending:
the result state of the main loop extends the input state. -/
theorem cleanLoop_extend (o : Oracle) (raw : List GeoPoint) (t : ℚ) :
    ∀ (anchor : ℕ) (s : LoopState),
      ∃ ki pa sg an,
        (cleanLoop o raw t anchor s).state.keyIdxs = s.keyIdxs ++ ki ∧
        (cleanLoop o raw t anchor s).state.path = s.path ++ pa ∧
        (cleanLoop o raw t anchor s).state.segs = s.segs ++ sg ∧
        (cleanLoop o raw t anchor s).state.anchors = s.anchors ++ an := by
  intro anchor s
  induction anchor, s using cleanLoop.induct o raw t with
  | case1 anchor s h hb ih =>
    rw [cleanLoop, dif_pos h, dif_pos hb]
    obtain ⟨ki, pa, sg, an, h1, h2, h3, h4⟩ := ih
    exact ⟨ki, pa, sg, (anchor + 1) :: an, by simpa using h1,
      by simpa using h2, by simpa using h3, by simpa using h4⟩
  | case2 anchor s h hb heq =>
    rw [cleanLoop, dif_pos h, dif_neg hb, heq]
    refine ⟨[], [], [], [], ?_, ?_, ?_, ?_⟩ <;> simp [LoopResult.state]
  | case3 anchor s h hb cs heq ih =>
    rw [cleanLoop, dif_pos h, dif_neg hb, heq]
    obtain ⟨ki, pa, sg, an, h1, h2, h3, h4⟩ := ih
    exact ⟨(searchFrom o raw t anchor s.calls).1 :: ki, cs.dropLast ++ pa,
      cs :: sg, (searchFrom o raw t anchor s.calls).1 :: an,
      by simpa using h1, by simpa using h2, by simpa using h3,
      by simpa using h4⟩
  | case4 anchor s h =>
    rw [cleanLoop, dif_neg h]
    refine ⟨[], [], [], [], ?_, ?_, ?_, ?_⟩ <;> simp [LoopResult.state]

/-- Helper: the anchor trajectory and the committed key-waypoint indices
stay strictly increasing through the loop, provided everything recorded so
far is at most the current anchor. -/
theorem cleanLoop_chains (o : Oracle) (raw : List GeoPoint) (t : ℚ) :
    ∀ (anchor : ℕ) (s : LoopState),
      (∀ x ∈ s.anchors, x ≤ anchor) → List.Chain' (· < ·) s.anchors →
      (∀ x ∈ s.keyIdxs, x ≤ anchor) → List.Chain' (· < ·) s.keyIdxs →
      List.Chain' (· < ·) ((cleanLoop o raw t anchor s).state.anchors) ∧
      List.Chain' (· < ·) ((cleanLoop o raw t anchor s).state.keyIdxs) := by
  intro anchor s
  induction anchor, s using cleanLoop.induct o raw t with
  | case1 anchor s h hb ih =>
    intro ha1 ha2 hk1 hk2
    rw [cleanLoop, dif_pos h, dif_pos hb]
    apply ih
    · intro x hx
      rcases List.mem_append.mp hx with hx | hx
      · exact le_trans (ha1 x hx) (by omega)
      · simp at hx
        omega
    · rw [List.chain'_append]
      refine ⟨ha2, by simp, ?_⟩
      intro x hx y hy
      simp at hy
      have hxm := ha1 x (mem_of_getLast_opt (Option.mem_def.mp hx))
      omega
    · intro x hx
      exact le_trans (hk1 x hx) (by omega)
    · exact hk2
  | case2 anchor s h hb heq =>
    intro ha1 ha2 hk1 hk2
    rw [cleanLoop, dif_pos h, dif_neg hb, heq]
    exact ⟨by simpa [LoopResult.state] using ha2,
      by simpa [LoopResult.state] using hk2⟩
  | case3 anchor s h hb cs heq ih =>
    intro ha1 ha2 hk1 hk2
    rw [cleanLoop, dif_pos h, dif_neg hb, heq]
    apply ih
    · intro x hx
      rcases List.mem_append.mp hx with hx | hx
      · exact le_trans (ha1 x hx) (by omega)
      · simp at hx
        omega
    · rw [List.chain'_append]
      refine ⟨ha2, by simp, ?_⟩
      intro x hx y hy
      simp at hy
      have hxm := ha1 x (mem_of_getLast_opt (Option.mem_def.mp hx))
      omega
    · intro x hx
      rcases List.mem_append.mp hx with hx | hx
      · exact le_trans (hk1 x hx) (by omega)
      · simp at hx
        omega
    · rw [List.chain'_append]
      refine ⟨hk2, by simp, ?_⟩
      intro x hx y hy
      simp at hy
      have hxm := hk1 x (mem_of_getLast_opt (Option.mem_def.mp hx))
      omega
  | case4 anchor s h =>
    intro ha1 ha2 hk1 hk2
    rw [cleanLoop, dif_neg h]
    exact ⟨ha2, hk2⟩

/-- Helper: the committed index of one whole search stays inside the
trace. -/
theorem searchFrom_le (o : Oracle) (raw : List GeoPoint) (t : ℚ)
    (anchor calls : ℕ) (h : anchor < raw.length) :
    (searchFrom o raw t anchor calls).1 ≤ raw.length - 1 := by
  have hs : searchFrom o raw t anchor calls =
      binaryPhase o raw t anchor
        (expandPhase o raw t anchor anchor 1 calls Nat.one_pos).1
        (expandPhase o raw t anchor anchor 1 calls Nat.one_pos).2.1
        (expandPhase o raw t anchor anchor 1 calls Nat.one_pos).1
        (expandPhase o raw t anchor anchor 1 calls Nat.one_pos).2.2 := rfl
  rw [hs]
  apply binaryPhase_fst_le
  · have := expandPhase_fst_lt o raw t anchor anchor 1 calls Nat.one_pos h
    omega
  · exact expandPhase_snd_le o raw t anchor anchor 1 calls Nat.one_pos

/-- Helper: when the oracle always answers with a nonempty polyline, one
whole search always commits strictly beyond the anchor (the first probe's
validation window is empty, so it validates). -/
theorem searchFrom_always_gt (o : Oracle) (raw : List GeoPoint) (t : ℚ)
    (anchor calls : ℕ)
    (hans : ∀ n a b, ∃ cs, o.route n a b = some cs ∧ cs ≠ [])
    (h : anchor < raw.length - 1) :
    anchor < (searchFrom o raw t anchor calls).1 := by
  have hs : searchFrom o raw t anchor calls =
      binaryPhase o raw t anchor
        (expandPhase o raw t anchor anchor 1 calls Nat.one_pos).1
        (expandPhase o raw t anchor anchor 1 calls Nat.one_pos).2.1
        (expandPhase o raw t anchor anchor 1 calls Nat.one_pos).1
        (expandPhase o raw t anchor anchor 1 calls Nat.one_pos).2.2 := rfl
  rw [hs]
  apply binaryPhase_fst_gt
  have := expandPhase_always_ge o raw t anchor calls hans (by omega)
  omega

/-- Helper: under a consistent oracle, a search that commits beyond the
anchor commits a validated index. -/
theorem searchFrom_valid (o : Oracle) (raw : List GeoPoint) (t : ℚ)
    (anchor calls : ℕ) (hcons : o.Consistent)
    (hgt : anchor < (searchFrom o raw t anchor calls).1) :
    routeOk o raw t anchor (searchFrom o raw t anchor calls).1 = true := by
  have hs : searchFrom o raw t anchor calls =
      binaryPhase o raw t anchor
        (expandPhase o raw t anchor anchor 1 calls Nat.one_pos).1
        (expandPhase o raw t anchor anchor 1 calls Nat.one_pos).2.1
        (expandPhase o raw t anchor anchor 1 calls Nat.one_pos).1
        (expandPhase o raw t anchor anchor 1 calls Nat.one_pos).2.2 := rfl
  rw [hs] at hgt ⊢
  rcases binaryPhase_fst_valid o hcons raw t anchor
      (expandPhase o raw t anchor anchor 1 calls Nat.one_pos).1
      (expandPhase o raw t anchor anchor 1 calls Nat.one_pos).2.1
      (expandPhase o raw t anchor anchor 1 calls Nat.one_pos).1
      (expandPhase o raw t anchor anchor 1 calls Nat.one_pos).2.2 with
    hbv | hbv
  · rcases expandPhase_fst_valid o hcons raw t anchor anchor 1 calls
        Nat.one_pos with hev | hev
    · rw [hbv, hev] at hgt
      exact absurd hgt (lt_irrefl anchor)
    · rw [hbv]
      exact hev
  · exact hbv.2

/-- Helper: a validated probe presupposes a route. -/
theorem routeOk_isSome (o : Oracle) (raw : List GeoPoint) (t : ℚ)
    (anchor j : ℕ) (h : routeOk o raw t anchor j = true) :
    ∃ cs, o.route 0 (raw.getD anchor default) (raw.getD j default) =
      some cs := by
  cases hr : o.route 0 (raw.getD anchor default) (raw.getD j default) with
  | none =>
    unfold routeOk probeOk at h
    rw [hr] at h
    simp at h
  | some cs => exact ⟨cs, rfl⟩

/-- Helper: when the oracle always answers with a nonempty polyline, the
loop always exits normally and its key-waypoint indices end at the last
raw index, provided they end at the current anchor on entry. -/
theorem cleanLoop_always_done (o : Oracle) (raw : List GeoPoint) (t : ℚ)
    (hans : ∀ n a b, ∃ cs, o.route n a b = some cs ∧ cs ≠ []) :
    ∀ (anchor : ℕ) (s : LoopState), anchor ≤ raw.length - 1 →
      s.keyIdxs.getLast? = some anchor →
      ∃ s', cleanLoop o raw t anchor s = LoopResult.done s' ∧
        s'.keyIdxs.getLast? = some (raw.length - 1) := by
  intro anchor s
  induction anchor, s using cleanLoop.induct o raw t with
  | case1 anchor s h hb ih =>
    intro hle hlast
    exfalso
    have := searchFrom_always_gt o raw t anchor s.calls hans h
    omega
  | case2 anchor s h hb heq =>
    intro hle hlast
    exfalso
    obtain ⟨cs, hcs, _⟩ := hans (searchFrom o raw t anchor s.calls).2
      (raw.getD anchor default)
      (raw.getD (searchFrom o raw t anchor s.calls).1 default)
    rw [heq] at hcs
    exact Option.noConfusion hcs
  | case3 anchor s h hb cs heq ih =>
    intro hle hlast
    rw [cleanLoop, dif_pos h, dif_neg hb, heq]
    apply ih
    · exact searchFrom_le o raw t anchor s.calls (by omega)
    · exact List.getLast?_concat _
  | case4 anchor s h =>
    intro hle hlast
    rw [cleanLoop, dif_neg h]
    refine ⟨s, rfl, ?_⟩
    have hae : anchor = raw.length - 1 := by omega
    rw [hlast, hae]

/-- Helper: under a consistent oracle the loop always exits normally: the
commit call re-routes a segment the search validated, so it cannot answer
`None`. -/
theorem cleanLoop_consistent_done (o : Oracle) (hcons : o.Consistent)
    (raw : List GeoPoint) (t : ℚ) :
    ∀ (anchor : ℕ) (s : LoopState),
      ∃ s', cleanLoop o raw t anchor s = LoopResult.done s' := by
  intro anchor s
  induction anchor, s using cleanLoop.induct o raw t with
  | case1 anchor s h hb ih =>
    rw [cleanLoop, dif_pos h, dif_pos hb]
    exact ih
  | case2 anchor s h hb heq =>
    exfalso
    have hgt : anchor < (searchFrom o raw t anchor s.calls).1 := by omega
    have hro := searchFrom_valid o raw t anchor s.calls hcons hgt
    obtain ⟨cs, hcs⟩ := routeOk_isSome o raw t anchor _ hro
    rw [hcons (searchFrom o raw t anchor s.calls).2 0
      (raw.getD anchor default)
      (raw.getD (searchFrom o raw t anchor s.calls).1 default)] at heq
    rw [heq] at hcs
    exact Option.noConfusion hcs
  | case3 anchor s h hb cs heq ih =>
    rw [cleanLoop, dif_pos h, dif_neg hb, heq]
    exact ih
  | case4 anchor s h =>
    rw [cleanLoop, dif_neg h]
    exact ⟨s, rfl⟩

/-- Helper: throughout the loop, the dense path is the concatenation of
the committed segments' polylines with their last points dropped. -/
theorem cleanLoop_path_flat (o : Oracle) (raw : List GeoPoint) (t : ℚ) :
    ∀ (anchor : ℕ) (s : LoopState),
      s.path = (s.segs.map (fun l => l.dropLast)).flatten →
      (cleanLoop o raw t anchor s).state.path =
        (((cleanLoop o raw t anchor s).state.segs).map
          (fun l => l.dropLast)).flatten := by
  intro anchor s
  induction anchor, s using cleanLoop.induct o raw t with
  | case1 anchor s h hb ih =>
    intro hp
    rw [cleanLoop, dif_pos h, dif_pos hb]
    exact ih hp
  | case2 anchor s h hb heq =>
    intro hp
    rw [cleanLoop, dif_pos h, dif_neg hb, heq]
    simpa [LoopResult.state] using hp
  | case3 anchor s h hb cs heq ih =>
    intro hp
    rw [cleanLoop, dif_pos h, dif_neg hb, heq]
    apply ih
    simp [hp]
  | case4 anchor s h =>
    intro hp
    rw [cleanLoop, dif_neg h]
    simpa [LoopResult.state] using hp

/-- Helper: the head of a nonempty list, as its 0-th default-read. -/
theorem head_opt_eq_getD_zero {α : Type} [Inhabited α] (l : List α)
    (h : l ≠ []) : l.head? = some (l.getD 0 default) := by
  cases l with
  | nil => exact absurd rfl h
  | cons a l => rfl

/-- Helper: the last element of a nonempty list, as its default-read at
index `length - 1`. -/
theorem getLast_opt_eq_getD {α : Type} [Inhabited α] (l : List α)
    (h : l ≠ []) :
    l.getLast? = some (l.getD (l.length - 1) default) := by
  rw [List.getLast?_eq_getElem?, List.getD_eq_getElem?_getD]
  cases hx : l[l.length - 1]? with
  | none =>
    exfalso
    rw [List.getElem?_eq_none_iff] at hx
    have hne : l.length ≠ 0 := by
      intro h0
      exact h (List.length_eq_zero.mp h0)
    omega
  | some a => rfl

/-- Helper: mapping through a nonempty list commutes with the last
default-read. -/
theorem getLastD_map_ne {α β : Type} (f : α → β) (l : List α) (h : l ≠ [])
    (d : β) (d' : α) : (l.map f).getLastD d = f (l.getLastD d') := by
  rw [List.getLastD_eq_getLast?, List.getLastD_eq_getLast?,
    List.getLast?_map]
  cases hx : l.getLast? with
  | none => exact absurd (List.getLast?_eq_none_iff.mp hx) h
  | some a => rfl

/-- Helper: a zero deviation measure passes every validation under a
positive threshold. -/
theorem validate_segment_const (pr : GeoPoint → List GeoPoint → GeoPoint)
    (cs l : List GeoPoint) :
    validate_segment (fun _ _ => (0 : ℚ)) pr cs l 500 = true := by
  induction l with
  | nil => rfl
  | cons p rest ih => simp [validate_segment, ih]

/-- C5: under a consistent oracle whose validity is monotone in the probe
index (anything nearer than a valid probe is also valid), one whole
search — exponential expansion followed by binary search — returns the
maximal index reachable from the anchor by a single valid routed segment:
the result is validated (when any index beyond the anchor is valid at
all), and every strictly further index inside the trace is invalid.  In
particular the `mid ≤ anchor` early break never commits a
smaller-than-maximal index: it can only fire when the expansion's first
probe already failed, in which case no index beyond the anchor is valid. -/
theorem search_commits_maximal (o : Oracle) (raw : List GeoPoint) (t : ℚ)
    (anchor calls : ℕ) (hcons : o.Consistent) (h : anchor < raw.length - 1)
    (hmono : ∀ i j, anchor < i → i ≤ j → j ≤ raw.length - 1 →
      routeOk o raw t anchor j = true → routeOk o raw t anchor i = true) :
    anchor ≤ (searchFrom o raw t anchor calls).1 ∧
    (searchFrom o raw t anchor calls).1 ≤ raw.length - 1 ∧
    (anchor < (searchFrom o raw t anchor calls).1 →
      routeOk o raw t anchor (searchFrom o raw t anchor calls).1 = true) ∧
    ∀ j, (searchFrom o raw t anchor calls).1 < j → j ≤ raw.length - 1 →
      routeOk o raw t anchor j = false := by
  have hlen2 : 2 ≤ raw.length := by omega
  set P : ℕ → Prop :=
    fun j => anchor < j ∧ routeOk o raw t anchor j = true with hP
  set G : ℕ := Nat.findGreatest P (raw.length - 1) with hG
  set B : ℕ := max anchor G with hB
  have hab : anchor ≤ B := le_max_left _ _
  have hGle : G ≤ raw.length - 1 := Nat.findGreatest_le _
  have hBle : B ≤ raw.length - 1 := by omega
  have hBok : anchor < B → routeOk o raw t anchor B = true := by
    intro hlt
    have hBG : B = G := by omega
    have hGpos : 0 < G := by omega
    have hPG : P G := Nat.findGreatest_of_ne_zero hG.symm (by omega)
    rw [hBG]
    exact hPG.2
  have hok : ∀ j, anchor < j → j ≤ raw.length - 1 →
      (routeOk o raw t anchor j = true ↔ j ≤ B) := by
    intro j hj1 hj2
    constructor
    · intro hro
      have : j ≤ G := Nat.le_findGreatest hj2 ⟨hj1, hro⟩
      omega
    · intro hjB
      have hjG : j ≤ G := by omega
      have hGpos : 0 < G := by omega
      have hPG : P G := Nat.findGreatest_of_ne_zero hG.symm (by omega)
      exact hmono j G hj1 hjG hGle hPG.2
  have hl_ge : anchor ≤ (expandPhase o raw t anchor anchor 1 calls
      Nat.one_pos).1 :=
    expandPhase_fst_ge o raw t anchor anchor 1 calls Nat.one_pos (by omega)
  have hl_lt : (expandPhase o raw t anchor anchor 1 calls Nat.one_pos).1 <
      raw.length :=
    expandPhase_fst_lt o raw t anchor anchor 1 calls Nat.one_pos (by omega)
  have hu_le : (expandPhase o raw t anchor anchor 1 calls Nat.one_pos).2.1 ≤
      raw.length - 1 :=
    expandPhase_snd_le o raw t anchor anchor 1 calls Nat.one_pos
  have hvalid := expandPhase_fst_valid o hcons raw t anchor anchor 1 calls
    Nat.one_pos
  have hfail := expandPhase_snd_failed o hcons raw t anchor anchor 1 calls
    Nat.one_pos
  have hlB : (expandPhase o raw t anchor anchor 1 calls Nat.one_pos).1 ≤ B := by
    rcases Nat.eq_or_lt_of_le hl_ge with heq | hlt
    · omega
    · rcases hvalid with heq | hro
      · omega
      · exact (hok _ hlt (by omega)).mp hro
  have hBu : B ≤ (expandPhase o raw t anchor anchor 1 calls Nat.one_pos).2.1 := by
    rcases hfail with heq | ⟨hf, hgt, hlt⟩
    · omega
    · by_contra hcon
      have h1 : (expandPhase o raw t anchor anchor 1 calls Nat.one_pos).2.1 ≤ B := by
        omega
      have := (hok _ hgt (by omega)).mpr h1
      rw [this] at hf
      exact Bool.true_eq_false.mp hf
  have hLA : (expandPhase o raw t anchor anchor 1 calls Nat.one_pos).1 =
      anchor → B = anchor := by
    intro heq
    have hfirst := expandPhase_first_failed o hcons raw t anchor calls
      (by omega) heq
    by_contra hcon
    have hBgt : anchor < B := by omega
    have h1 : anchor + 1 ≤ B := by omega
    have := (hok (anchor + 1) (by omega) (by omega)).mpr h1
    rw [this] at hfirst
    exact Bool.true_eq_false.mp hfirst
  have hs : searchFrom o raw t anchor calls =
      binaryPhase o raw t anchor
        (expandPhase o raw t anchor anchor 1 calls Nat.one_pos).1
        (expandPhase o raw t anchor anchor 1 calls Nat.one_pos).2.1
        (expandPhase o raw t anchor anchor 1 calls Nat.one_pos).1
        (expandPhase o raw t anchor anchor 1 calls Nat.one_pos).2.2 := rfl
  have hfinds : (searchFrom o raw t anchor calls).1 = B := by
    rw [hs]
    exact binaryPhase_finds o hcons raw t anchor B hok hab _ _ _ _
      hBu (by omega) (Or.inl hlB) hl_ge hl_ge hlB hLA hu_le
  refine ⟨by omega, by omega, ?_, ?_⟩
  · intro hlt
    rw [hfinds] at hlt ⊢
    exact hBok hlt
  · intro j hj1 hj2
    rw [hfinds] at hj1
    cases hxj : routeOk o raw t anchor j with
    | false => rfl
    | true =>
      have := (hok j (by omega) hj2).mp hxj
      omega

/-- Witness for C5: a three-point trace under an engine that always
answers with an always-accepting deviation measure; validity is monotone
there, and the committed index stays inside the trace. -/
theorem search_commits_maximal_app :
    (searchFrom oracleLine [⟨0, 0⟩, ⟨1, 1⟩, ⟨3, 3⟩] 500 0 0).1 ≤
      [(⟨0, 0⟩ : GeoPoint), ⟨1, 1⟩, ⟨3, 3⟩].length - 1 :=
  (search_commits_maximal oracleLine [⟨0, 0⟩, ⟨1, 1⟩, ⟨3, 3⟩] 500 0 0
    (fun m n a b => rfl) (by simp)
    (fun i j h1 h2 h3 h4 => by
      simp [routeOk, probeOk, oracleLine, validate_segment_const])).2.1

/-- C10: on a two-point trace whose first probe routes with a nonempty
(truthy) polyline — exactly what a validated search probe guarantees, the
commit therefore being reached with `best_next_idx = 1` — a `None` answer
to the one final re-route of the already-validated segment (the third
call of the run) makes `clean_gps_route` raise — the source subscripts
`None` — rather than recover or return a result. -/
theorem commit_none_crashes (o : Oracle) (p q : GeoPoint) (t : ℚ)
    (cs : List GeoPoint) (h0 : o.route 0 p q = some cs) (hne : cs ≠ [])
    (h2 : o.route 2 p q = none) :
    clean_gps_route o [p, q] t = CleanOutcome.crash := by
  have hpo : probeOk o [p, q] t 0 1 0 = true := by
    cases cs with
    | nil => exact absurd rfl hne
    | cons a l => simp [probeOk, h0, validate_segment]
  have hexp : expandPhase o [p, q] t 0 0 1 0 Nat.one_pos = (1, 1, 1) := by
    simp [expandPhase, hpo]
  have hbin : binaryPhase o [p, q] t 0 1 1 1 1 = (1, 2) := by
    cases hb1 : probeOk o [p, q] t 0 1 1 with
    | false => simp [binaryPhase, hb1]
    | true => simp [binaryPhase, hb1]
  have hsearch : searchFrom o [p, q] t 0 0 = (1, 2) := by
    simp [searchFrom, hexp, hbin]
  have hloop : cleanLoop o [p, q] t 0 initState =
      LoopResult.crash { initState with calls := 3 } := by
    rw [cleanLoop]
    simp [initState, hsearch, h2]
  simp [clean_gps_route, hloop]

/-- Witness for C10: the flaky engine (answers the two search calls,
fails the commit call) crashes the cleaner on a two-point trace. -/
theorem commit_none_crashes_app :
    clean_gps_route oracleFlaky [⟨0, 0⟩, ⟨3, 3⟩] 500 = CleanOutcome.crash :=
  commit_none_crashes oracleFlaky ⟨0, 0⟩ ⟨3, 3⟩ 500 [⟨0, 0⟩, ⟨3, 3⟩]
    (by simp [oracleFlaky]) (by simp) (by simp [oracleFlaky])

/-- Counterexample for C3: on a two-point trace that the engine cannot
route at all, `clean_gps_route` succeeds with a single key waypoint, and
`reroute_count` is `len(key_waypoints) - 2 = -1`: the value is negative
and no clamping to zero occurs. -/
theorem reroute_count_negative_example :
    clean_gps_route oracleNone [⟨0, 0⟩, ⟨3, 3⟩] 500 =
      CleanOutcome.ok
        { waypoints := [⟨0, 0⟩], path := [⟨0, 0⟩], distance := 0,
          duration := 0, reroute_count := -1, compression := 2 } := by
  simp [clean_gps_route, cleanLoop, searchFrom, expandPhase, binaryPhase,
    probeOk, initState, oracleNone, calculate_path_distance_coords]

/-- C3 as amended: in every successful result `reroute_count` equals
`len(waypoints) - 2`, with no clamping: the value is `-1` whenever no
segment was ever committed (see the counterexample). -/
theorem reroute_count_eq_sub_two (o : Oracle) (raw : List GeoPoint) (t : ℚ)
    (res : CleanOk) (h : clean_gps_route o raw t = CleanOutcome.ok res) :
    res.reroute_count = (res.waypoints.length : ℤ) - 2 := by
  unfold clean_gps_route at h
  split at h
  · exact absurd h (by simp)
  · split at h
    · exact absurd h (by simp)
    · injection h with h'
      subst h'
      simp

/-- Witness for C3's amended statement, at the unroutable two-point run. -/
theorem reroute_count_eq_sub_two_app :
    ({ waypoints := [(⟨0, 0⟩ : GeoPoint)], path := [⟨0, 0⟩], distance := 0,
       duration := 0, reroute_count := -1, compression := 2 } :
        CleanOk).reroute_count =
      (({ waypoints := [(⟨0, 0⟩ : GeoPoint)], path := [⟨0, 0⟩],
          distance := 0, duration := 0, reroute_count := -1,
          compression := 2 } : CleanOk).waypoints.length : ℤ) - 2 :=
  reroute_count_eq_sub_two oracleNone [⟨0, 0⟩, ⟨3, 3⟩] 500 _
    (by simp [clean_gps_route, cleanLoop, searchFrom, expandPhase,
      binaryPhase, probeOk, initState, oracleNone,
      calculate_path_distance_coords])

/-- C4: over the run `clean_gps_route` performs (any oracle, any
threshold, trace of length at least 2), the anchor trajectory is
monotonically non-decreasing — in fact strictly increasing, it never
revisits a lower index — and the raw-trace indices of the committed key
waypoints are strictly increasing and start at index 0. -/
theorem anchor_monotone_waypoints_strict (o : Oracle) (raw : List GeoPoint)
    (t : ℚ) (h2 : 2 ≤ raw.length) :
    List.Chain' (· ≤ ·) ((cleanLoop o raw t 0 initState).state.anchors) ∧
    List.Chain' (· < ·) ((cleanLoop o raw t 0 initState).state.anchors) ∧
    List.Chain' (· < ·) ((cleanLoop o raw t 0 initState).state.keyIdxs) ∧
    ((cleanLoop o raw t 0 initState).state.keyIdxs).head? = some 0 := by
  have hch := cleanLoop_chains o raw t 0 initState (by simp [initState])
    (by simp [initState]) (by simp [initState]) (by simp [initState])
  obtain ⟨ki, pa, sg, an, h1, _, _, _⟩ := cleanLoop_extend o raw t 0 initState
  refine ⟨List.Chain'.imp (fun a b hab => le_of_lt hab) hch.1, hch.1,
    hch.2, ?_⟩
  rw [h1]
  simp [initState]

/-- Witness for C4, on a concrete two-point run. -/
theorem anchor_monotone_waypoints_strict_app :
    List.Chain' (· ≤ ·)
      ((cleanLoop oracleLine [⟨0, 0⟩, ⟨3, 3⟩] 500 0 initState).state.anchors) ∧
    List.Chain' (· < ·)
      ((cleanLoop oracleLine [⟨0, 0⟩, ⟨3, 3⟩] 500 0 initState).state.anchors) ∧
    List.Chain' (· < ·)
      ((cleanLoop oracleLine [⟨0, 0⟩, ⟨3, 3⟩] 500 0 initState).state.keyIdxs) ∧
    ((cleanLoop oracleLine [⟨0, 0⟩, ⟨3, 3⟩] 500 0
      initState).state.keyIdxs).head? = some 0 :=
  anchor_monotone_waypoints_strict oracleLine [⟨0, 0⟩, ⟨3, 3⟩] 500 (by simp)

/-- Counterexample for C1: an engine that always answers — every routing
call returns a value, never `None` — but always with an empty polyline.
Every probe fails the source's truthiness test `if not segment_coords`
(line 55), so on a two-point trace the run still succeeds but its key
waypoints are `[RawTrace[0]]`: the waypoint list does not end at
`RawTrace[len-1]`, refuting the claim as stated. -/
theorem clean_empty_polyline_example :
    clean_gps_route oracleEmpty [⟨0, 0⟩, ⟨3, 3⟩] 500 =
      CleanOutcome.ok
        { waypoints := [⟨0, 0⟩], path := [⟨0, 0⟩], distance := 0,
          duration := 0, reroute_count := -1, compression := 2 } ∧
    (oracleEmpty.route 0 ⟨0, 0⟩ ⟨3, 3⟩).isSome = true ∧
    [(⟨0, 0⟩ : GeoPoint)].getLast? ≠
      [(⟨0, 0⟩ : GeoPoint), ⟨3, 3⟩].getLast? := by
  refine ⟨?_, rfl, by decide⟩
  simp [clean_gps_route, cleanLoop, searchFrom, expandPhase, binaryPhase,
    probeOk, initState, oracleEmpty, calculate_path_distance_coords]

/-- C1 as amended: for every raw trace of length at least 2, under a
routing collaborator that always answers with a nonempty (truthy)
polyline, `clean_gps_route` returns the success dictionary, and its
key-waypoint list begins with the first raw point and ends with the last
raw point.  (An engine that always answers but with empty polylines fails
every probe instead — see the counterexample.) -/
theorem clean_success_endpoints (o : Oracle) (raw : List GeoPoint) (t : ℚ)
    (h2 : 2 ≤ raw.length)
    (hans : ∀ n a b, ∃ cs, o.route n a b = some cs ∧ cs ≠ []) :
    ∃ res, clean_gps_route o raw t = CleanOutcome.ok res ∧
      res.waypoints.head? = raw.head? ∧
      res.waypoints.getLast? = raw.getLast? := by
  have hnl : ¬raw.length < 2 := by omega
  have hne : raw ≠ [] := by
    intro h0
    rw [h0] at h2
    simp at h2
  obtain ⟨s', hdone, hlast⟩ := cleanLoop_always_done o raw t hans 0 initState
    (by omega) (by simp [initState])
  obtain ⟨ki, pa, sg, an, h1, _, _, _⟩ := cleanLoop_extend o raw t 0 initState
  rw [hdone] at h1
  simp only [LoopResult.state, initState] at h1
  have hkne : s'.keyIdxs ≠ [] := by
    rw [h1]
    simp
  rw [clean_gps_route, if_neg hnl, hdone]
  refine ⟨_, rfl, ?_, ?_⟩
  · rw [List.head?_map, h1]
    rw [head_opt_eq_getD_zero raw hne]
    rfl
  · rw [List.getLast?_map, hlast]
    rw [getLast_opt_eq_getD raw hne]
    rfl

/-- Witness for C1, on a concrete two-point run under the always-answering
engine. -/
theorem clean_success_endpoints_app :
    ∃ res, clean_gps_route oracleLine [⟨0, 0⟩, ⟨3, 3⟩] 500 =
        CleanOutcome.ok res ∧
      res.waypoints.head? = [(⟨0, 0⟩ : GeoPoint), ⟨3, 3⟩].head? ∧
      res.waypoints.getLast? = [(⟨0, 0⟩ : GeoPoint), ⟨3, 3⟩].getLast? :=
  clean_success_endpoints oracleLine [⟨0, 0⟩, ⟨3, 3⟩] 500 (by simp)
    (fun n a b => ⟨[⟨0, 0⟩, ⟨3, 3⟩], rfl, by simp⟩)

/-- C6: `clean_gps_route` terminates on every input against every routing
and validation oracle — the oracle being a function of the queried
endpoints (per-call inconsistency is the separately-analysed crash of the
commit step) — and, for traces of length at least 2, returns a success
result: per-segment failures only narrow the search or advance the anchor
by one, and every loop iteration strictly increases the anchor. -/
theorem clean_always_returns (o : Oracle) (raw : List GeoPoint) (t : ℚ)
    (hcons : o.Consistent) (h2 : 2 ≤ raw.length) :
    (∃ res, clean_gps_route o raw t = CleanOutcome.ok res) ∧
    List.Chain' (· < ·) ((cleanLoop o raw t 0 initState).state.anchors) := by
  have hnl : ¬raw.length < 2 := by omega
  obtain ⟨s', hdone⟩ := cleanLoop_consistent_done o hcons raw t 0 initState
  constructor
  · rw [clean_gps_route, if_neg hnl, hdone]
    exact ⟨_, rfl⟩
  · exact (cleanLoop_chains o raw t 0 initState (by simp [initState])
      (by simp [initState]) (by simp [initState]) (by simp [initState])).1

/-- Witness for C6, on a concrete two-point run with the unroutable (but
consistent) engine: the run still returns a success result. -/
theorem clean_always_returns_app :
    (∃ res, clean_gps_route oracleNone [⟨0, 0⟩, ⟨3, 3⟩] 500 =
      CleanOutcome.ok res) ∧
    List.Chain' (· < ·)
      ((cleanLoop oracleNone [⟨0, 0⟩, ⟨3, 3⟩] 500 0 initState).state.anchors) :=
  clean_always_returns oracleNone [⟨0, 0⟩, ⟨3, 3⟩] 500
    (fun m n a b => rfl) (by simp)

/-- C8: in every successful result, the dense output path is exactly the
concatenation of the committed segments' routed polylines each with its
last point dropped (de-duplicating the boundary shared with the next
segment), terminated by the final key waypoint. -/
theorem path_concat_segments (o : Oracle) (raw : List GeoPoint) (t : ℚ)
    (res : CleanOk) (h : clean_gps_route o raw t = CleanOutcome.ok res) :
    res.path =
      (((cleanLoop o raw t 0 initState).state.segs).map
        (fun l => l.dropLast)).flatten ++
        [res.waypoints.getLastD default] ∧
    res.waypoints ≠ [] := by
  rw [clean_gps_route] at h
  by_cases hlen : raw.length < 2
  · rw [if_pos hlen] at h
    exact absurd h (by simp)
  · rw [if_neg hlen] at h
    cases hloop : cleanLoop o raw t 0 initState with
    | crash s1 =>
      rw [hloop] at h
      exact absurd h (by simp)
    | done s1 =>
      rw [hloop] at h
      have hflat := cleanLoop_path_flat o raw t 0 initState
        (by simp [initState])
      rw [hloop] at hflat
      obtain ⟨ki, pa, sg, an, h1, _, _, _⟩ :=
        cleanLoop_extend o raw t 0 initState
      rw [hloop] at h1
      simp only [LoopResult.state, initState] at h1 hflat
      have hkne : s1.keyIdxs ≠ [] := by
        rw [h1]
        simp
      simp only [LoopResult.state]
      injection h with h'
      subst h'
      refine ⟨?_, ?_⟩
      · simp only []
        rw [hflat]
        rw [getLastD_map_ne (fun i => raw.getD i default) s1.keyIdxs hkne
          default 0]
      · simp only []
        rw [h1]
        simp


/-- Witness for C8: the concrete two-point run under the always-answering
engine, whose success record is computed explicitly. -/
theorem path_concat_segments_app :
    ({ waypoints := [⟨0, 0⟩, ⟨3, 3⟩], path := [⟨0, 0⟩, ⟨3, 3⟩],
       distance := 0, duration := 0, reroute_count := 0,
       compression := 1 } : CleanOk).path =
      (((cleanLoop oracleLine [⟨0, 0⟩, ⟨3, 3⟩] 500 0 initState).state.segs).map
        (fun l => l.dropLast)).flatten ++
        [({ waypoints := [⟨0, 0⟩, ⟨3, 3⟩], path := [⟨0, 0⟩, ⟨3, 3⟩],
            distance := 0, duration := 0, reroute_count := 0,
            compression := 1 } : CleanOk).waypoints.getLastD default] ∧
    ({ waypoints := [⟨0, 0⟩, ⟨3, 3⟩], path := [⟨0, 0⟩, ⟨3, 3⟩],
       distance := 0, duration := 0, reroute_count := 0,
       compression := 1 } : CleanOk).waypoints ≠ [] :=
  path_concat_segments oracleLine [⟨0, 0⟩, ⟨3, 3⟩] 500 _
    (by simp [clean_gps_route, cleanLoop, searchFrom, expandPhase,
      binaryPhase, probeOk, initState, oracleLine, validate_segment,
      calculate_path_distance_coords])

end TrainlogGps
